import Mathlib

/-!
Verification of the Hangul composition engine (`hangulComposer.ts`).

JavaScript strings are modelled as lists of UTF-16 code units (`List Nat`);
every character handled by the engine lives in the BMP, so one character is
one code unit.  Each definition below is a direct translation of the
corresponding function of the source file.
-/

set_option maxRecDepth 10000

namespace Hangul

/-- A JavaScript string: the list of its UTF-16 code units. -/
abbrev JStr := List Nat

/-- The one-character string holding the character `c`. -/
def j (c : Char) : JStr := [c.toNat]

/-- `HANGUL_BASE` from the source. -/
def HANGUL_BASE : Nat := 0xac00

/-- `INITIALS` from the source: the 19 initial consonants. -/
def INITIALS : List JStr :=
  [j 'ㄱ', j 'ㄲ', j 'ㄴ', j 'ㄷ', j 'ㄸ', j 'ㄹ', j 'ㅁ', j 'ㅂ', j 'ㅃ', j 'ㅅ',
   j 'ㅆ', j 'ㅇ', j 'ㅈ', j 'ㅉ', j 'ㅊ', j 'ㅋ', j 'ㅌ', j 'ㅍ', j 'ㅎ']

/-- `VOWELS` from the source: the 21 vowels. -/
def VOWELS : List JStr :=
  [j 'ㅏ', j 'ㅐ', j 'ㅑ', j 'ㅒ', j 'ㅓ', j 'ㅔ', j 'ㅕ', j 'ㅖ', j 'ㅗ', j 'ㅘ',
   j 'ㅙ', j 'ㅚ', j 'ㅛ', j 'ㅜ', j 'ㅝ', j 'ㅞ', j 'ㅟ', j 'ㅠ', j 'ㅡ', j 'ㅢ', j 'ㅣ']

/-- `FINALS` from the source: the 28 finals, the empty final `''` first. -/
def FINALS : List JStr :=
  [[], j 'ㄱ', j 'ㄲ', j 'ㄳ', j 'ㄴ', j 'ㄵ', j 'ㄶ', j 'ㄷ', j 'ㄹ', j 'ㄺ',
   j 'ㄻ', j 'ㄼ', j 'ㄽ', j 'ㄾ', j 'ㄿ', j 'ㅀ', j 'ㅁ', j 'ㅂ', j 'ㅄ', j 'ㅅ',
   j 'ㅆ', j 'ㅇ', j 'ㅈ', j 'ㅊ', j 'ㅋ', j 'ㅌ', j 'ㅍ', j 'ㅎ']

/-- The `CompositionState` interface from the source. -/
structure CompositionState where
  initial : JStr
  vowel : JStr
  final : JStr
deriving DecidableEq, Repr

/-- First index of `char` in a list, `none` when absent. -/
def findIdx0 (char : JStr) : List JStr → Option Nat
  | [] => none
  | x :: xs => if x = char then some 0 else (findIdx0 char xs).map (· + 1)

/-- `getIndex` from the source: `array.indexOf(char)`, which is `-1` when absent. -/
def getIndex (char : JStr) (array : List JStr) : Int :=
  match findIdx0 char array with
  | some i => (i : Int)
  | none => -1

/-- `combineJamo` from the source.  `String.fromCharCode` truncates its argument
to an unsigned 16-bit value, hence the `% 65536`. -/
def combineJamo (initial vowel : JStr) (final : JStr := []) : JStr :=
  let initialIdx := getIndex initial INITIALS
  let vowelIdx := getIndex vowel VOWELS
  let finalIdx : Int := if final = [] then 0 else getIndex final FINALS
  if initialIdx = -1 ∨ vowelIdx = -1 then []
  else
    let codePoint : Int := (HANGUL_BASE : Int) + initialIdx * 588 + vowelIdx * 28 + finalIdx
    [codePoint.toNat % 65536]

/-- `decomposeSyllable` from the source.  On the empty string `charCodeAt(0)`
is `NaN`: both range comparisons are then false and every array index misses,
so the source returns a state of three empty strings; the first match arm
models that.  `INITIALS[i] || ''` is `List.getD` because no listed jamo is
falsy. -/
def decomposeSyllable (syllable : JStr) : Option CompositionState :=
  match syllable with
  | [] => some ⟨[], [], []⟩
  | code :: _ =>
    if code < HANGUL_BASE ∨ code > 0xd7a3 then none
    else
      let relativeCode := code - HANGUL_BASE
      let initialIdx := relativeCode / 588
      let vowelIdx := (relativeCode % 588) / 28
      let finalIdx := relativeCode % 28
      some ⟨INITIALS.getD initialIdx [], VOWELS.getD vowelIdx [], FINALS.getD finalIdx []⟩

/-- `isInitial` from the source. -/
def isInitial (char : JStr) : Bool := INITIALS.contains char

/-- `isVowel` from the source. -/
def isVowel (char : JStr) : Bool := VOWELS.contains char

/-- `isFinal` from the source. -/
def isFinal (char : JStr) : Bool := FINALS.contains char && char != []

/-- `isSyllable` from the source (`charCodeAt(0)` of `''` is `NaN`, so the
empty string is not a syllable). -/
def isSyllable (char : JStr) : Bool :=
  match char with
  | [] => false
  | code :: _ => decide (HANGUL_BASE ≤ code) && decide (code ≤ 0xd7a3)

/-- `combineVowels` from the source: the compound-vowel table. -/
def combineVowels (vowel1 vowel2 : JStr) : Option JStr :=
  if vowel1 = j 'ㅗ' then
    if vowel2 = j 'ㅏ' then some (j 'ㅘ')
    else if vowel2 = j 'ㅐ' then some (j 'ㅙ')
    else if vowel2 = j 'ㅣ' then some (j 'ㅚ')
    else none
  else if vowel1 = j 'ㅜ' then
    if vowel2 = j 'ㅓ' then some (j 'ㅝ')
    else if vowel2 = j 'ㅔ' then some (j 'ㅞ')
    else if vowel2 = j 'ㅣ' then some (j 'ㅟ')
    else none
  else if vowel1 = j 'ㅡ' then
    if vowel2 = j 'ㅣ' then some (j 'ㅢ')
    else none
  else none

/-- `getCompoundFinal` from the source: the compound-final table. -/
def getCompoundFinal (final1 final2 : JStr) : Option JStr :=
  if final1 = j 'ㄱ' then
    if final2 = j 'ㅅ' then some (j 'ㄳ')
    else none
  else if final1 = j 'ㄴ' then
    if final2 = j 'ㅈ' then some (j 'ㄵ')
    else if final2 = j 'ㅎ' then some (j 'ㄶ')
    else none
  else if final1 = j 'ㄹ' then
    if final2 = j 'ㄱ' then some (j 'ㄺ')
    else if final2 = j 'ㅁ' then some (j 'ㄻ')
    else if final2 = j 'ㅂ' then some (j 'ㄼ')
    else if final2 = j 'ㅅ' then some (j 'ㄽ')
    else if final2 = j 'ㅌ' then some (j 'ㄾ')
    else if final2 = j 'ㅍ' then some (j 'ㄿ')
    else if final2 = j 'ㅎ' then some (j 'ㅀ')
    else none
  else if final1 = j 'ㅂ' then
    if final2 = j 'ㅅ' then some (j 'ㅄ')
    else none
  else none

/-- `addJamo` from the source (`src/unnamed/part_004`), branch for branch.
`currentText[currentText.length - 1]` is the last code unit,
`slice(0, -1)` is `dropLast`, `slice(0, -2)` is `dropLast.dropLast`, and
`currentText[currentText.length - 2]` exists exactly when
`currentText.dropLast.getLast?` is `some`.  The one non-returning path of the
source's `if (decomposed.final)` block (a jamo that is neither vowel, final
nor initial — impossible) falls through to the no-final section, as here. -/
def addJamo (currentText : JStr) (newJamo : JStr) : JStr :=
  if !isInitial newJamo && !isVowel newJamo && !isFinal newJamo then
    currentText ++ newJamo
  else
    match currentText.getLast? with
    | none =>
      if isInitial newJamo then newJamo
      else if isVowel newJamo then newJamo
      else currentText
    | some lc =>
      let lastChar : JStr := [lc]
      if isSyllable lastChar then
        match decomposeSyllable lastChar with
        | none => currentText ++ newJamo
        | some decomposed =>
          if decomposed.final != [] && isVowel newJamo then
            let syllableWithoutFinal := combineJamo decomposed.initial decomposed.vowel []
            let newSyllable := combineJamo decomposed.final newJamo []
            currentText.dropLast ++ syllableWithoutFinal ++ newSyllable
          else if decomposed.final != [] && isFinal newJamo then
            match getCompoundFinal decomposed.final newJamo with
            | some compoundFinal =>
              currentText.dropLast ++ combineJamo decomposed.initial decomposed.vowel compoundFinal
            | none =>
              if isInitial newJamo then currentText ++ newJamo
              else currentText.dropLast ++ combineJamo decomposed.initial decomposed.vowel newJamo
          else if decomposed.final != [] && isInitial newJamo then
            currentText ++ newJamo
          else if isVowel newJamo then
            match combineVowels decomposed.vowel newJamo with
            | some compoundVowel =>
              currentText.dropLast ++ combineJamo decomposed.initial compoundVowel []
            | none => currentText ++ newJamo
          else if isFinal newJamo then
            currentText.dropLast ++ combineJamo decomposed.initial decomposed.vowel newJamo
          else if isInitial newJamo && !isFinal newJamo then
            currentText ++ newJamo
          else currentText ++ newJamo
      else if isInitial lastChar then
        if isVowel newJamo then
          match currentText.dropLast.getLast? with
          | some slc =>
            if isSyllable [slc] then
              match decomposeSyllable [slc] with
              | some d2 =>
                if d2.final != [] then
                  currentText.dropLast.dropLast ++
                    combineJamo d2.initial d2.vowel d2.final ++ combineJamo lastChar newJamo []
                else currentText.dropLast ++ combineJamo lastChar newJamo []
              | none => currentText.dropLast ++ combineJamo lastChar newJamo []
            else currentText.dropLast ++ combineJamo lastChar newJamo []
          | none => currentText.dropLast ++ combineJamo lastChar newJamo []
        else if isInitial newJamo then
          currentText.dropLast ++ newJamo
        else currentText ++ newJamo
      else if isVowel lastChar then
        if isInitial newJamo then currentText ++ newJamo
        else currentText ++ newJamo
      else if isFinal lastChar then
        if isVowel newJamo then currentText ++ newJamo
        else if isInitial newJamo then currentText ++ newJamo
        else currentText ++ newJamo
      else currentText ++ newJamo

/-- `handleBackspace` from the source. -/
def handleBackspace (currentText : JStr) : JStr :=
  match currentText.getLast? with
  | none => currentText
  | some lc =>
    let lastChar : JStr := [lc]
    if isSyllable lastChar then
      match decomposeSyllable lastChar with
      | none => currentText.dropLast
      | some decomposed =>
        if decomposed.final != [] then
          currentText.dropLast ++ combineJamo decomposed.initial decomposed.vowel []
        else if decomposed.vowel != [] then
          currentText.dropLast ++ decomposed.initial ++ decomposed.vowel
        else currentText.dropLast
    else currentText.dropLast

/-! ### Index and arithmetic helper lemmas -/

theorem getIndex_INITIALS_getD : ∀ i < 19, getIndex (INITIALS.getD i []) INITIALS = (i : Int) := by
  decide

theorem getIndex_VOWELS_getD : ∀ v < 21, getIndex (VOWELS.getD v []) VOWELS = (v : Int) := by
  decide

theorem getIndex_FINALS_getD : ∀ f < 28, f ≠ 0 → getIndex (FINALS.getD f []) FINALS = (f : Int) := by
  decide

theorem FINALS_getD_nil_iff : ∀ f < 28, (FINALS.getD f [] = [] ↔ f = 0) := by
  decide

theorem VOWELS_getD_ne_nil : ∀ v < 21, VOWELS.getD v [] ≠ [] := by
  decide

theorem combineJamo_getD (i v f : Nat) (hi : i < 19) (hv : v < 21) (hf : f < 28) :
    combineJamo (INITIALS.getD i []) (VOWELS.getD v []) (FINALS.getD f []) =
      [HANGUL_BASE + i * 588 + v * 28 + f] := by
  have hI := getIndex_INITIALS_getD i hi
  have hV := getIndex_VOWELS_getD v hv
  simp only [combineJamo]
  rw [hI, hV]
  rw [if_neg (by omega : ¬ ((i : Int) = -1 ∨ (v : Int) = -1))]
  by_cases h0 : f = 0
  · subst h0
    rw [if_pos (show FINALS.getD 0 [] = ([] : JStr) from rfl)]
    simp only [HANGUL_BASE]
    congr 1
    omega
  · rw [if_neg (fun hnil => h0 ((FINALS_getD_nil_iff f hf).mp hnil))]
    rw [getIndex_FINALS_getD f hf h0]
    simp only [HANGUL_BASE]
    congr 1
    omega

theorem decomposeSyllable_in_range (n : Nat) (h1 : HANGUL_BASE ≤ n) (h2 : n ≤ 0xd7a3) :
    decomposeSyllable [n] =
      some ⟨INITIALS.getD ((n - HANGUL_BASE) / 588) [],
            VOWELS.getD ((n - HANGUL_BASE) % 588 / 28) [],
            FINALS.getD ((n - HANGUL_BASE) % 28) []⟩ := by
  simp only [decomposeSyllable]
  rw [if_neg (by omega)]

theorem decomposeSyllable_some_range {n : Nat} {d : CompositionState}
    (h : decomposeSyllable [n] = some d) : HANGUL_BASE ≤ n ∧ n ≤ 0xd7a3 := by
  simp only [decomposeSyllable] at h
  by_cases hr : n < HANGUL_BASE ∨ n > 0xd7a3
  · rw [if_pos hr] at h; cases h
  · omega

theorem isSyllable_iff (n : Nat) : isSyllable [n] = true ↔ (HANGUL_BASE ≤ n ∧ n ≤ 0xd7a3) := by
  simp [isSyllable]

theorem decomposeSyllable_fields {n : Nat} {d : CompositionState}
    (h : decomposeSyllable [n] = some d) :
    ∃ i v f, i < 19 ∧ v < 21 ∧ f < 28 ∧
      d.initial = INITIALS.getD i [] ∧ d.vowel = VOWELS.getD v [] ∧ d.final = FINALS.getD f [] ∧
      n = HANGUL_BASE + i * 588 + v * 28 + f := by
  obtain ⟨h1, h2⟩ := decomposeSyllable_some_range h
  rw [decomposeSyllable_in_range n h1 h2] at h
  injection h with h
  subst h
  refine ⟨(n - HANGUL_BASE) / 588, (n - HANGUL_BASE) % 588 / 28, (n - HANGUL_BASE) % 28,
    ?_, ?_, ?_, ?_, ?_, ?_, ?_⟩
  · simp only [HANGUL_BASE] at h1 h2 ⊢
    omega
  · simp only [HANGUL_BASE] at h1 h2 ⊢
    omega
  · simp only [HANGUL_BASE] at h1 h2 ⊢
    omega
  · dsimp only
  · dsimp only
  · dsimp only
  · simp only [HANGUL_BASE] at h1 h2 ⊢
    omega

theorem combineJamo_decomposeSyllable {n : Nat} {d : CompositionState}
    (h : decomposeSyllable [n] = some d) :
    combineJamo d.initial d.vowel d.final = [n] := by
  obtain ⟨i, v, f, hi, hv, hf, e1, e2, e3, e4⟩ := decomposeSyllable_fields h
  rw [e1, e2, e3, combineJamo_getD i v f hi hv hf, e4]

theorem isInitial_iff (x : JStr) : isInitial x = true ↔ x ∈ INITIALS := by
  simp [isInitial, List.elem_iff]

theorem isVowel_iff (x : JStr) : isVowel x = true ↔ x ∈ VOWELS := by
  simp [isVowel, List.elem_iff]

theorem isFinal_iff (x : JStr) : isFinal x = true ↔ (x ∈ FINALS ∧ x ≠ []) := by
  simp [isFinal, List.elem_iff]

theorem final_not_vowel (x : JStr) (h : isFinal x = true) : isVowel x = false := by
  obtain ⟨hx, -⟩ := (isFinal_iff x).mp h
  have : ∀ y ∈ FINALS, y ∉ VOWELS := by decide
  have hnv : x ∉ VOWELS := this x hx
  rcases hv : isVowel x with - | -
  · rfl
  · exact absurd ((isVowel_iff x).mp hv) hnv

theorem initial_not_syllable (x : JStr) (h : isInitial x = true) : isSyllable x = false := by
  have hx := (isInitial_iff x).mp h
  have : ∀ y ∈ INITIALS, isSyllable y = false := by decide
  exact this x hx

theorem mem_INITIALS_getD {x : JStr} (h : x ∈ INITIALS) :
    ∃ i, i < 19 ∧ INITIALS.getD i [] = x := by
  obtain ⟨i, hi, hx⟩ := List.mem_iff_getElem.mp h
  exact ⟨i, hi, by rw [List.getD_eq_getElem _ _ hi]; exact hx⟩

theorem mem_VOWELS_getD {x : JStr} (h : x ∈ VOWELS) :
    ∃ v, v < 21 ∧ VOWELS.getD v [] = x := by
  obtain ⟨v, hv, hx⟩ := List.mem_iff_getElem.mp h
  exact ⟨v, hv, by rw [List.getD_eq_getElem _ _ hv]; exact hx⟩

theorem mem_FINALS_getD {x : JStr} (h : x ∈ FINALS) :
    ∃ f, f < 28 ∧ FINALS.getD f [] = x := by
  obtain ⟨f, hf, hx⟩ := List.mem_iff_getElem.mp h
  exact ⟨f, hf, by rw [List.getD_eq_getElem _ _ hf]; exact hx⟩

/-! ### Branch computations for addJamo -/

theorem addJamo_final_vowel (pre : JStr) (c : Nat) (d : CompositionState) (key : JStr)
    (hd : decomposeSyllable [c] = some d) (hf : d.final ≠ []) (hk : isVowel key = true) :
    addJamo (pre ++ [c]) key =
      pre ++ combineJamo d.initial d.vowel [] ++ combineJamo d.final key [] := by
  have hr := decomposeSyllable_some_range hd
  have hsyl : isSyllable [c] = true := (isSyllable_iff c).mpr hr
  have hf' : (d.final != []) = true := bne_iff_ne.mpr hf
  unfold addJamo
  rw [List.getLast?_concat]
  simp [hk, hsyl, hd, hf']

theorem addJamo_final_final (pre : JStr) (c : Nat) (d : CompositionState) (key : JStr)
    (hd : decomposeSyllable [c] = some d) (hf : d.final ≠ []) (hk : isFinal key = true) :
    addJamo (pre ++ [c]) key =
      match getCompoundFinal d.final key with
      | some compoundFinal => pre ++ combineJamo d.initial d.vowel compoundFinal
      | none =>
        if isInitial key then (pre ++ [c]) ++ key
        else pre ++ combineJamo d.initial d.vowel key := by
  have hr := decomposeSyllable_some_range hd
  have hsyl : isSyllable [c] = true := (isSyllable_iff c).mpr hr
  have hf' : (d.final != []) = true := bne_iff_ne.mpr hf
  have hkv : isVowel key = false := final_not_vowel key hk
  unfold addJamo
  rw [List.getLast?_concat]
  rcases hcf : getCompoundFinal d.final key with - | cf
  · by_cases hki : isInitial key = true
    · simp [hk, hkv, hsyl, hd, hf', hcf, hki]
    · have hki' : isInitial key = false := by
        cases h : isInitial key
        · rfl
        · exact absurd h hki
      simp [hk, hkv, hsyl, hd, hf', hcf, hki']
  · simp [hk, hkv, hsyl, hd, hf', hcf]

theorem addJamo_nofinal_vowel (pre : JStr) (c : Nat) (d : CompositionState) (key : JStr)
    (hd : decomposeSyllable [c] = some d) (hf : d.final = []) (hk : isVowel key = true) :
    addJamo (pre ++ [c]) key =
      match combineVowels d.vowel key with
      | some compoundVowel => pre ++ combineJamo d.initial compoundVowel []
      | none => (pre ++ [c]) ++ key := by
  have hr := decomposeSyllable_some_range hd
  have hsyl : isSyllable [c] = true := (isSyllable_iff c).mpr hr
  unfold addJamo
  rw [List.getLast?_concat]
  rcases hcv : combineVowels d.vowel key with - | cv <;>
    simp [hk, hsyl, hd, hf, hcv]

theorem decompose_combine_index (i v f : Nat) (hi : i < 19) (hv : v < 21) (hf : f < 28) :
    decomposeSyllable [HANGUL_BASE + i * 588 + v * 28 + f] =
      some ⟨INITIALS.getD i [], VOWELS.getD v [], FINALS.getD f []⟩ := by
  rw [decomposeSyllable_in_range (HANGUL_BASE + i * 588 + v * 28 + f) (by omega)
      (by simp only [HANGUL_BASE]; omega)]
  have e1 : (HANGUL_BASE + i * 588 + v * 28 + f - HANGUL_BASE) / 588 = i := by
    simp only [HANGUL_BASE]; omega
  have e2 : (HANGUL_BASE + i * 588 + v * 28 + f - HANGUL_BASE) % 588 / 28 = v := by
    simp only [HANGUL_BASE]; omega
  have e3 : (HANGUL_BASE + i * 588 + v * 28 + f - HANGUL_BASE) % 28 = f := by
    simp only [HANGUL_BASE]; omega
  rw [e1, e2, e3]

theorem findIdx0_eq_none {x : JStr} {l : List JStr} (h : x ∉ l) : findIdx0 x l = none := by
  induction l with
  | nil => rfl
  | cons a as ih =>
    have hne : a ≠ x := fun he => h (he ▸ List.mem_cons_self a as)
    have hnm : x ∉ as := fun hm => h (List.mem_cons_of_mem a hm)
    simp [findIdx0, hne, ih hnm]

theorem combineJamo_not_initial (x y z : JStr) (h : isInitial x = false) :
    combineJamo x y z = [] := by
  have hx : x ∉ INITIALS := fun hm => by simp [(isInitial_iff x).mpr hm] at h
  have hidx : findIdx0 x INITIALS = none := findIdx0_eq_none hx
  simp only [combineJamo, getIndex, hidx]
  rw [if_pos (Or.inl trivial)]

/-! ### Claim theorems -/

/-- C1: for every initial in the 19-element INITIALS set, every vowel in the
21-element VOWELS set and every final in the 28-element FINALS set (including
the empty final), `decomposeSyllable (combineJamo initial vowel final)`
returns exactly the triple `(initial, vowel, final)`. -/
theorem C1_roundtrip : ∀ ini ∈ INITIALS, ∀ vow ∈ VOWELS, ∀ fin ∈ FINALS,
    decomposeSyllable (combineJamo ini vow fin) = some ⟨ini, vow, fin⟩ := by
  intro ini hini vow hvow fin hfin
  obtain ⟨i, hi, hieq⟩ := mem_INITIALS_getD hini
  obtain ⟨v, hv, hveq⟩ := mem_VOWELS_getD hvow
  obtain ⟨f, hf, hfeq⟩ := mem_FINALS_getD hfin
  subst hieq hveq hfeq
  rw [combineJamo_getD i v f hi hv hf, decompose_combine_index i v f hi hv hf]

/-- Witness for C1 at the concrete triple (ㄷ, ㅏ, ㄺ), which composes to 닭. -/
theorem C1_roundtrip_witness :
    decomposeSyllable (combineJamo (j 'ㄷ') (j 'ㅏ') (j 'ㄺ')) =
      some ⟨j 'ㄷ', j 'ㅏ', j 'ㄺ'⟩ :=
  C1_roundtrip (j 'ㄷ') (by decide) (j 'ㅏ') (by decide) (j 'ㄺ') (by decide)

/-- C2: a buffer ending in a syllable with a non-empty final, fed a vowel key,
becomes the buffer with the trailing syllable re-composed without its final,
followed by the composition of the old final (as initial) with the vowel. -/
theorem C2_decompose_and_restart (pre : JStr) (c : Nat) (d : CompositionState) (key : JStr)
    (hd : decomposeSyllable [c] = some d) (hf : d.final ≠ []) (hk : isVowel key = true) :
    addJamo (pre ++ [c]) key =
      pre ++ combineJamo d.initial d.vowel [] ++ combineJamo d.final key [] :=
  addJamo_final_vowel pre c d key hd hf hk

/-- Witness for C2: "가감" plus key ㅏ. -/
theorem C2_decompose_and_restart_witness :
    addJamo (j '가' ++ [('감').toNat]) (j 'ㅏ') =
      j '가' ++ combineJamo (j 'ㄱ') (j 'ㅏ') [] ++ combineJamo (j 'ㅁ') (j 'ㅏ') [] :=
  C2_decompose_and_restart (j '가') (('감').toNat) ⟨j 'ㄱ', j 'ㅏ', j 'ㅁ'⟩ (j 'ㅏ')
    (by decide) (by decide) (by decide)

/-- C3: a buffer ending in a syllable with a non-empty final, fed a final key:
the compound-final table is consulted first; if it hits, the final is replaced
by the compound; else, an incoming jamo that is also an initial starts a new
syllable; otherwise the final is replaced outright. -/
theorem C3_compound_final_priority (pre : JStr) (c : Nat) (d : CompositionState) (key : JStr)
    (hd : decomposeSyllable [c] = some d) (hf : d.final ≠ []) (hk : isFinal key = true) :
    addJamo (pre ++ [c]) key =
      match getCompoundFinal d.final key with
      | some compoundFinal => pre ++ combineJamo d.initial d.vowel compoundFinal
      | none =>
        if isInitial key then (pre ++ [c]) ++ key
        else pre ++ combineJamo d.initial d.vowel key :=
  addJamo_final_final pre c d key hd hf hk

/-- Witness for C3: "합" plus key ㅅ takes the compound final ㅄ. -/
theorem C3_compound_final_priority_witness :
    addJamo (([] : JStr) ++ [('합').toNat]) (j 'ㅅ') =
      [] ++ combineJamo (j 'ㅎ') (j 'ㅏ') (j 'ㅄ') := by
  have h := C3_compound_final_priority [] (('합').toNat) ⟨j 'ㅎ', j 'ㅏ', j 'ㅂ'⟩ (j 'ㅅ')
    (by decide) (by decide) (by decide)
  dsimp only at h
  rw [show getCompoundFinal (j 'ㅂ') (j 'ㅅ') = some (j 'ㅄ') from by decide] at h
  exact h

/-- C4: a buffer ending in a syllable without a final, fed a vowel key,
replaces the vowel by its compound when the vowel table hits and appends the
vowel otherwise; and the key sequence ㅇ, ㅜ, ㅓ from the empty buffer yields
the single character 워. -/
theorem C4_vowel_compound :
    (∀ (pre : JStr) (c : Nat) (d : CompositionState) (key : JStr),
      decomposeSyllable [c] = some d → d.final = [] → isVowel key = true →
      addJamo (pre ++ [c]) key =
        match combineVowels d.vowel key with
        | some compoundVowel => pre ++ combineJamo d.initial compoundVowel []
        | none => (pre ++ [c]) ++ key)
    ∧ addJamo (addJamo (addJamo [] (j 'ㅇ')) (j 'ㅜ')) (j 'ㅓ') = j '워' := by
  refine ⟨?_, by decide⟩
  intro pre c d key hd hf hk
  exact addJamo_nofinal_vowel pre c d key hd hf hk

/-- Witness for C4: "우" plus key ㅓ combines the vowels into ㅝ. -/
theorem C4_vowel_compound_witness :
    addJamo (([] : JStr) ++ [('우').toNat]) (j 'ㅓ') = [] ++ combineJamo (j 'ㅇ') (j 'ㅝ') [] := by
  have h := C4_vowel_compound.1 [] (('우').toNat) ⟨j 'ㅇ', j 'ㅜ', []⟩ (j 'ㅓ')
    (by decide) (by decide) (by decide)
  dsimp only at h
  rw [show combineVowels (j 'ㅜ') (j 'ㅓ') = some (j 'ㅝ') from by decide] at h
  exact h

/-- C8: every valid triple composes to a single character inside the
precomposed block U+AC00..U+D7A3, and decomposition rejects every character
outside that block. -/
theorem C8_codepoint_bounds :
    (∀ ini ∈ INITIALS, ∀ vow ∈ VOWELS, ∀ fin ∈ FINALS,
      ∃ n, combineJamo ini vow fin = [n] ∧ 0xac00 ≤ n ∧ n ≤ 0xd7a3)
    ∧ (∀ c : Nat, c < 0xac00 ∨ 0xd7a3 < c → decomposeSyllable [c] = none) := by
  constructor
  · intro ini hini vow hvow fin hfin
    obtain ⟨i, hi, hieq⟩ := mem_INITIALS_getD hini
    obtain ⟨v, hv, hveq⟩ := mem_VOWELS_getD hvow
    obtain ⟨f, hf, hfeq⟩ := mem_FINALS_getD hfin
    subst hieq hveq hfeq
    refine ⟨HANGUL_BASE + i * 588 + v * 28 + f, combineJamo_getD i v f hi hv hf, ?_, ?_⟩ <;>
      simp only [HANGUL_BASE] <;> omega
  · intro c hc
    simp only [decomposeSyllable]
    rw [if_pos (by simp only [HANGUL_BASE]; omega)]

/-- Witness for C8: the triple (ㅎ, ㅣ, ㅎ) and the non-Hangul character A. -/
theorem C8_codepoint_bounds_witness :
    (∃ n, combineJamo (j 'ㅎ') (j 'ㅣ') (j 'ㅎ') = [n] ∧ 0xac00 ≤ n ∧ n ≤ 0xd7a3)
    ∧ decomposeSyllable [0x41] = none :=
  ⟨C8_codepoint_bounds.1 (j 'ㅎ') (by decide) (j 'ㅣ') (by decide) (j 'ㅎ') (by decide),
   C8_codepoint_bounds.2 0x41 (by decide)⟩

/-- C10: a trailing syllable whose final is not a valid initial (exactly the
eleven cluster finals), fed a vowel key, loses its final and the key: the
restarted syllable is the empty sentinel, so nothing is appended. -/
theorem C10_cluster_final_drops :
    (∀ (pre : JStr) (c : Nat) (d : CompositionState) (key : JStr),
      decomposeSyllable [c] = some d → d.final ≠ [] → isInitial d.final = false →
      isVowel key = true →
      addJamo (pre ++ [c]) key = pre ++ combineJamo d.initial d.vowel [] ∧
      combineJamo d.final key [] = [])
    ∧ addJamo (j '닭') (j 'ㅏ') = j '다'
    ∧ FINALS.filter (fun x => x != [] && !INITIALS.contains x) =
        [j 'ㄳ', j 'ㄵ', j 'ㄶ', j 'ㄺ', j 'ㄻ', j 'ㄼ', j 'ㄽ', j 'ㄾ', j 'ㄿ', j 'ㅀ', j 'ㅄ'] := by
  refine ⟨?_, by decide, by decide⟩
  intro pre c d key hd hf hni hk
  have hempty : combineJamo d.final key [] = [] := combineJamo_not_initial d.final key [] hni
  refine ⟨?_, hempty⟩
  rw [addJamo_final_vowel pre c d key hd hf hk, hempty, List.append_nil]

/-- Witness for C10: addJamo "닭" ㅏ strips the cluster final ㄺ and drops ㅏ. -/
theorem C10_cluster_final_drops_witness :
    addJamo (([] : JStr) ++ [('닭').toNat]) (j 'ㅏ') = [] ++ combineJamo (j 'ㄷ') (j 'ㅏ') [] ∧
    combineJamo (j 'ㄺ') (j 'ㅏ') [] = [] :=
  C10_cluster_final_drops.1 [] (('닭').toNat) ⟨j 'ㄷ', j 'ㅏ', j 'ㄺ'⟩ (j 'ㅏ')
    (by decide) (by decide) (by decide) (by decide)

/-! ### Branch computations for handleBackspace -/

theorem combineJamo_getD_nofinal (i v : Nat) (hi : i < 19) (hv : v < 21) :
    combineJamo (INITIALS.getD i []) (VOWELS.getD v []) [] =
      [HANGUL_BASE + i * 588 + v * 28] := by
  have h := combineJamo_getD i v 0 hi hv (by omega)
  simpa using h

theorem hb_concat_final (pre : JStr) (c : Nat) (d : CompositionState)
    (hd : decomposeSyllable [c] = some d) (hf : d.final ≠ []) :
    handleBackspace (pre ++ [c]) = pre ++ combineJamo d.initial d.vowel [] := by
  have hr := decomposeSyllable_some_range hd
  have hsyl : isSyllable [c] = true := (isSyllable_iff c).mpr hr
  have hf' : (d.final != []) = true := bne_iff_ne.mpr hf
  unfold handleBackspace
  rw [List.getLast?_concat]
  simp [hsyl, hd, hf']

theorem hb_concat_nofinal (pre : JStr) (c : Nat) (d : CompositionState)
    (hd : decomposeSyllable [c] = some d) (hf : d.final = []) (hv : d.vowel ≠ []) :
    handleBackspace (pre ++ [c]) = pre ++ d.initial ++ d.vowel := by
  have hr := decomposeSyllable_some_range hd
  have hsyl : isSyllable [c] = true := (isSyllable_iff c).mpr hr
  have hv' : (d.vowel != []) = true := bne_iff_ne.mpr hv
  unfold handleBackspace
  rw [List.getLast?_concat]
  simp [hsyl, hd, hf, hv']

theorem hb_concat_other (pre : JStr) (c : Nat) (hs : isSyllable [c] = false) :
    handleBackspace (pre ++ [c]) = pre := by
  unfold handleBackspace
  rw [List.getLast?_concat]
  simp [hs]

theorem decompose_vowel_ne_nil {c : Nat} {d : CompositionState}
    (hd : decomposeSyllable [c] = some d) : d.vowel ≠ [] := by
  obtain ⟨i, v, f, hi, hv, hf, e1, e2, e3, e4⟩ := decomposeSyllable_fields hd
  rw [e2]
  exact VOWELS_getD_ne_nil v hv

/-- C5: handleBackspace is the identity on the empty buffer; a trailing
syllable with a final shrinks to its recomposition without the final (and
does not disappear); a trailing syllable without a final unmerges into its
bare initial and vowel, two single characters; any other last character is
removed outright. -/
theorem C5_backspace_cases :
    handleBackspace [] = []
    ∧ (∀ (pre : JStr) (c : Nat) (d : CompositionState),
        decomposeSyllable [c] = some d → d.final ≠ [] →
        handleBackspace (pre ++ [c]) = pre ++ combineJamo d.initial d.vowel [] ∧
        combineJamo d.initial d.vowel [] ≠ [])
    ∧ (∀ (pre : JStr) (c : Nat) (d : CompositionState),
        decomposeSyllable [c] = some d → d.final = [] →
        handleBackspace (pre ++ [c]) = pre ++ d.initial ++ d.vowel ∧
        d.initial.length = 1 ∧ d.vowel.length = 1)
    ∧ (∀ (pre : JStr) (c : Nat), isSyllable [c] = false →
        handleBackspace (pre ++ [c]) = pre) := by
  refine ⟨rfl, ?_, ?_, hb_concat_other⟩
  · intro pre c d hd hf
    refine ⟨hb_concat_final pre c d hd hf, ?_⟩
    obtain ⟨i, v, f, hi, hv, hf28, e1, e2, e3, e4⟩ := decomposeSyllable_fields hd
    rw [e1, e2, combineJamo_getD_nofinal i v hi hv]
    simp
  · intro pre c d hd hf
    obtain ⟨i, v, f, hi, hv, hf28, e1, e2, e3, e4⟩ := decomposeSyllable_fields hd
    refine ⟨hb_concat_nofinal pre c d hd hf (decompose_vowel_ne_nil hd), ?_, ?_⟩
    · rw [e1]
      have h19 : ∀ k < 19, (INITIALS.getD k []).length = 1 := by decide
      exact h19 i hi
    · rw [e2]
      have h21 : ∀ k < 21, (VOWELS.getD k []).length = 1 := by decide
      exact h21 v hv

/-- Witness for C5 at "감", "가" and "ㄱ". -/
theorem C5_backspace_cases_witness :
    (handleBackspace (([] : JStr) ++ [('감').toNat]) = [] ++ combineJamo (j 'ㄱ') (j 'ㅏ') [] ∧
      combineJamo (j 'ㄱ') (j 'ㅏ') [] ≠ []) ∧
    (handleBackspace (([] : JStr) ++ [('가').toNat]) = [] ++ j 'ㄱ' ++ j 'ㅏ' ∧
      (j 'ㄱ').length = 1 ∧ (j 'ㅏ').length = 1) ∧
    handleBackspace (([] : JStr) ++ [('ㄱ').toNat]) = [] :=
  ⟨C5_backspace_cases.2.1 [] (('감').toNat) ⟨j 'ㄱ', j 'ㅏ', j 'ㅁ'⟩ (by decide) (by decide),
   C5_backspace_cases.2.2.1 [] (('가').toNat) ⟨j 'ㄱ', j 'ㅏ', []⟩ (by decide) (by decide),
   C5_backspace_cases.2.2.2 [] (('ㄱ').toNat) (by decide)⟩

/-! ### A decreasing measure for repeated backspace -/

/-- Number of backspace presses needed to clear one character: 4 for a
syllable with a final, 3 for a syllable without one, 1 for anything else. -/
def weight (c : Nat) : Nat :=
  if HANGUL_BASE ≤ c ∧ c ≤ 0xd7a3 then (if (c - HANGUL_BASE) % 28 = 0 then 3 else 4) else 1

/-- Total backspace cost of a buffer. -/
def cost (s : JStr) : Nat := (s.map weight).sum

theorem weight_pos (c : Nat) : 1 ≤ weight c := by
  unfold weight
  split
  · split <;> omega
  · omega

theorem weight_le (c : Nat) : weight c ≤ 4 := by
  unfold weight
  split
  · split <;> omega
  · omega

theorem cost_append (s t : JStr) : cost (s ++ t) = cost s + cost t := by
  simp [cost]

theorem cost_single (c : Nat) : cost [c] = weight c := by
  simp [cost]

theorem cost_le (s : JStr) : cost s ≤ 4 * s.length := by
  induction s with
  | nil => simp [cost]
  | cons a as ih =>
    have h := weight_le a
    simp only [cost, List.map_cons, List.sum_cons, List.length_cons] at ih ⊢
    omega

theorem length_le_cost (s : JStr) : s.length ≤ cost s := by
  induction s with
  | nil => simp [cost]
  | cons a as ih =>
    have h := weight_pos a
    simp only [cost, List.map_cons, List.sum_cons, List.length_cons] at ih ⊢
    omega

theorem weight_nofinal_syllable (i v : Nat) (hi : i < 19) (hv : v < 21) :
    weight (HANGUL_BASE + i * 588 + v * 28) = 3 := by
  unfold weight
  rw [if_pos (by simp only [HANGUL_BASE]; omega), if_pos (by simp only [HANGUL_BASE]; omega)]

theorem cost_INITIALS_getD : ∀ i < 19, cost (INITIALS.getD i []) = 1 := by decide

theorem cost_VOWELS_getD : ∀ v < 21, cost (VOWELS.getD v []) = 1 := by decide

theorem cost_hb_concat (pre : JStr) (c : Nat) :
    cost (handleBackspace (pre ++ [c])) < cost (pre ++ [c]) := by
  by_cases hsyl : isSyllable [c] = true
  · obtain ⟨h1, h2⟩ := (isSyllable_iff c).mp hsyl
    obtain ⟨d, hd⟩ : ∃ d, decomposeSyllable [c] = some d :=
      ⟨_, decomposeSyllable_in_range c h1 h2⟩
    obtain ⟨i, v, f, hi, hv, hf28, e1, e2, e3, e4⟩ := decomposeSyllable_fields hd
    by_cases hf0 : d.final = []
    · have hfz : f = 0 := (FINALS_getD_nil_iff f hf28).mp (by rw [← e3]; exact hf0)
      rw [hb_concat_nofinal pre c d hd hf0 (decompose_vowel_ne_nil hd), e1, e2]
      have hc1 : cost (INITIALS.getD i []) = 1 := cost_INITIALS_getD i hi
      have hc2 : cost (VOWELS.getD v []) = 1 := cost_VOWELS_getD v hv
      have hwc : weight c = 3 := by
        unfold weight
        rw [if_pos ⟨h1, h2⟩, if_pos (by simp only [HANGUL_BASE] at e4 ⊢; omega)]
      rw [cost_append, cost_append, cost_append, cost_single, hc1, hc2, hwc]
      omega
    · rw [hb_concat_final pre c d hd hf0, e1, e2, combineJamo_getD_nofinal i v hi hv]
      have hfz : f ≠ 0 := fun h0 => hf0 (by rw [e3, h0]; rfl)
      have hw3 := weight_nofinal_syllable i v hi hv
      have hw4 : weight c = 4 := by
        unfold weight
        rw [if_pos ⟨h1, h2⟩, if_neg (by simp only [HANGUL_BASE] at e4 ⊢; omega)]
      rw [cost_append, cost_append, cost_single, cost_single, hw3, hw4]
      omega
  · have hs : isSyllable [c] = false := by
      cases h : isSyllable [c]
      · rfl
      · exact absurd h hsyl
    rw [hb_concat_other pre c hs, cost_append, cost_single]
    have := weight_pos c
    omega

theorem cost_hb_lt (s : JStr) (hs : s ≠ []) : cost (handleBackspace s) < cost s := by
  obtain ⟨pre, c, rfl⟩ : ∃ pre c, s = pre ++ [c] :=
    ⟨s.dropLast, s.getLast hs, (List.dropLast_append_getLast hs).symm⟩
  exact cost_hb_concat pre c

theorem hb_iterate_empty : ∀ (n : Nat) (s : JStr), cost s ≤ n → handleBackspace^[n] s = [] := by
  intro n
  induction n with
  | zero =>
    intro s hs
    have h := length_le_cost s
    have hlen : s.length = 0 := by omega
    simpa using List.length_eq_zero.mp hlen
  | succ n ih =>
    intro s hs
    by_cases hnil : s = []
    · subst hnil
      exact Function.iterate_fixed rfl (n + 1)
    · have hlt := cost_hb_lt s hnil
      rw [Function.iterate_succ_apply]
      exact ih (handleBackspace s) (by omega)

/-- C6 counterexample: the one-character buffer "각" (a syllable with a
final) is not cleared within 2 * 1 backspace presses: after 0, 1 and 2
presses the buffer is still non-empty (it takes 4). -/
theorem C6_two_len_counterexample :
    (2 * ([('각').toNat] : JStr).length = 2)
    ∧ handleBackspace^[0] [('각').toNat] ≠ []
    ∧ handleBackspace^[1] [('각').toNat] ≠ []
    ∧ handleBackspace^[2] [('각').toNat] ≠ [] := by
  decide

/-- C6 amended: iterating handleBackspace clears every buffer after finitely
many steps, at most 4 times the character count of the buffer. -/
theorem C6_backspace_terminates (s : JStr) : handleBackspace^[4 * s.length] s = [] :=
  hb_iterate_empty (4 * s.length) s (cost_le s)

/-- C7 counterexample: ㄳ is a final consonant, yet addJamo on the empty
buffer drops it instead of appending it literally. -/
theorem C7_cluster_final_not_appended :
    isFinal (j 'ㄳ') = true ∧ addJamo [] (j 'ㄳ') = [] ∧ j 'ㄳ' ≠ ([] : JStr) := by
  decide

/-- C7 amended: on the empty buffer a non-jamo character is appended
literally and a final that is also a valid initial is returned as typed, but
a final that is not a valid initial (a cluster final) is dropped: the result
is the empty buffer. -/
theorem C7_empty_buffer (k : Nat) :
    (isInitial [k] = false → isVowel [k] = false → isFinal [k] = false →
      addJamo [] [k] = [k])
    ∧ (isFinal [k] = true → isInitial [k] = true → addJamo [] [k] = [k])
    ∧ (isFinal [k] = true → isInitial [k] = false → addJamo [] [k] = []) := by
  refine ⟨?_, ?_, ?_⟩
  · intro h1 h2 h3
    unfold addJamo
    simp [h1, h2, h3]
  · intro h1 h2
    unfold addJamo
    simp [h2]
  · intro h1 h2
    have h3 : isVowel [k] = false := final_not_vowel [k] h1
    unfold addJamo
    simp [h1, h2, h3]

/-- Witness for C7 at the letter A, the plain final ㄱ and the cluster final ㄳ. -/
theorem C7_empty_buffer_witness :
    addJamo [] [0x61] = [0x61] ∧ addJamo [] (j 'ㄱ') = j 'ㄱ' ∧ addJamo [] (j 'ㄳ') = [] :=
  ⟨(C7_empty_buffer 0x61).1 (by decide) (by decide) (by decide),
   (C7_empty_buffer (('ㄱ').toNat)).2.1 (by decide) (by decide),
   (C7_empty_buffer (('ㄳ').toNat)).2.2 (by decide) (by decide)⟩

/-! ### Frame property of addJamo -/

theorem addJamo_concat_shape (pre : JStr) (c : Nat) (key : JStr) :
    ∃ t, addJamo (pre ++ [c]) key = pre ++ t := by
  obtain ⟨z, hz⟩ : ∃ z, addJamo (pre ++ [c]) key = z := ⟨_, rfl⟩
  rw [hz]
  unfold addJamo at hz
  rw [List.getLast?_concat] at hz
  simp only [List.dropLast_concat] at hz
  repeat' split at hz
  all_goals subst hz
  all_goals try exact ⟨_, rfl⟩
  all_goals try exact ⟨[c] ++ key, List.append_assoc pre [c] key⟩
  · rename_i d hd hf
    exact ⟨combineJamo d.initial d.vowel ++ combineJamo d.final key, by
      rw [List.append_assoc]⟩
  · rename_i slc hgl hsl2 xo d2 hd2 hf2
    exact ⟨combineJamo [c] key, by
      rw [combineJamo_decomposeSyllable hd2,
        List.dropLast_append_getLast? slc (Option.mem_def.mpr hgl)]⟩

theorem addJamo_lookback (pre : JStr) (c2 c1 : Nat) (d2 : CompositionState) (key : JStr)
    (hd2 : decomposeSyllable [c2] = some d2) (hf2 : d2.final ≠ [])
    (hc1 : isInitial [c1] = true) (hk : isVowel key = true) :
    addJamo (pre ++ [c2, c1]) key = pre ++ [c2] ++ combineJamo [c1] key [] := by
  have hs1 : isSyllable [c1] = false := initial_not_syllable [c1] hc1
  have hr := decomposeSyllable_some_range hd2
  have hs2 : isSyllable [c2] = true := (isSyllable_iff c2).mpr hr
  have hf2' : (d2.final != []) = true := bne_iff_ne.mpr hf2
  have hsplit : pre ++ [c2, c1] = (pre ++ [c2]) ++ [c1] := by simp
  rw [hsplit]
  unfold addJamo
  rw [List.getLast?_concat]
  simp only [List.dropLast_concat, List.getLast?_concat]
  simp [hk, hs1, hc1, hs2, hd2, hf2', combineJamo_decomposeSyllable hd2]

/-- C9: for every non-empty buffer, addJamo leaves the first length-minus-one
characters unchanged; in particular, in the three-character-lookback case the
earlier syllable-with-final is re-rendered in place to exactly itself and the
new syllable is appended after it. -/
theorem C9_frame :
    (∀ (s key : JStr), s ≠ [] →
      (addJamo s key).take (s.length - 1) = s.take (s.length - 1))
    ∧ (∀ (pre : JStr) (c2 c1 : Nat) (d2 : CompositionState) (key : JStr),
        decomposeSyllable [c2] = some d2 → d2.final ≠ [] →
        isInitial [c1] = true → isVowel key = true →
        addJamo (pre ++ [c2, c1]) key = pre ++ [c2] ++ combineJamo [c1] key []) := by
  constructor
  · intro s key hs
    obtain ⟨pre, c, rfl⟩ : ∃ pre c, s = pre ++ [c] :=
      ⟨s.dropLast, s.getLast hs, (List.dropLast_append_getLast hs).symm⟩
    obtain ⟨t, ht⟩ := addJamo_concat_shape pre c key
    rw [ht]
    have hlen : (pre ++ [c]).length - 1 = pre.length := by simp
    rw [hlen, List.take_left, List.take_left]
  · exact addJamo_lookback

/-- Witness for C9: the buffer "가ㄴ" with key ㅏ, and the lookback case
"감ㄴ" with key ㅏ. -/
theorem C9_frame_witness :
    (addJamo (j '가' ++ [('ㄴ').toNat]) (j 'ㅏ')).take ((j '가' ++ [('ㄴ').toNat]).length - 1) =
      (j '가' ++ [('ㄴ').toNat]).take ((j '가' ++ [('ㄴ').toNat]).length - 1)
    ∧ addJamo (([] : JStr) ++ [('감').toNat, ('ㄴ').toNat]) (j 'ㅏ') =
        [] ++ [('감').toNat] ++ combineJamo (j 'ㄴ') (j 'ㅏ') [] :=
  ⟨C9_frame.1 (j '가' ++ [('ㄴ').toNat]) (j 'ㅏ') (by decide),
   C9_frame.2 [] (('감').toNat) (('ㄴ').toNat) ⟨j 'ㄱ', j 'ㅏ', j 'ㅁ'⟩ (j 'ㅏ')
     (by decide) (by decide) (by decide) (by decide)⟩

end Hangul
